import Mathlib

/-
Shallow embedding of the modmesh hierarchical call-path profiler
(src/cpp/modmesh/toggle/callprofiler.hpp) and of the buffer collaborator
(src/cpp/modmesh/buffer/BufferExpander.hpp).

Timestamps of std::chrono::high_resolution_clock are modelled as Nat ticks
of one nanosecond; std::chrono::duration_cast<std::chrono::milliseconds>
truncates, modelled as division by nsPerMs.  The profiler's clock reads are
external inputs, so every operation that reads the clock takes the current
timestamp as an explicit argument.
-/

namespace modmesh

/-- Number of clock ticks (nanoseconds) per millisecond, the conversion done
by duration_cast to std::chrono::milliseconds (integer truncation). -/
def nsPerMs : Nat := 1000000

/-- CallerProfile from callprofiler.hpp: the profiling payload of one node of
the calling-context tree.  totalTime is a count of milliseconds. -/
structure CallerProfile where
  callerName : String := ""
  totalTime : Nat := 0
  callCount : Nat := 0
  deriving Repr, DecidableEq, Inhabited

/-- CallerInfo from callprofiler.hpp: one entry of the profiler's explicit
stack of active invocations. -/
structure CallerInfo where
  callerName : String
  startTime : Nat
  deriving Repr, DecidableEq

/-- Modelled from the spec: RadixTree.hpp is included by callprofiler.hpp but
is not among the given sources, so the calling-context tree is modelled from
spec section 4.1.  A node is identified by its full path of names from the
root (the root is the empty path); each node stores an aggregated
CallerProfile payload; the node list is kept in creation (insertion) order;
the cursor is the path of the current node and is never null (the root is
the path []). -/
structure RadixTree where
  nodes : List (List String × CallerProfile)
  current : List String
  deriving Repr, DecidableEq

/-- Modelled from the spec: a freshly constructed tree holds exactly one
root node with an empty payload, and the cursor starts at the root. -/
def RadixTree.initial : RadixTree :=
  { nodes := [([], {})], current := [] }

/-- Payload lookup by full path (first node whose path matches). -/
def RadixTree.lookup (t : RadixTree) (p : List String) : Option CallerProfile :=
  (t.nodes.find? (fun e => e.1 = p)).map (fun e => e.2)

/-- Pointwise payload rewrite of the node at path p (no-op when absent). -/
def RadixTree.update (t : RadixTree) (p : List String) (f : CallerProfile → CallerProfile) : RadixTree :=
  { t with nodes := t.nodes.map (fun e => if e.1 = p then (e.1, f e.2) else e) }

/-- Modelled from the spec: entry(name) finds a child of the current cursor
node with the given name, creates it with an empty payload if absent, and
moves the cursor to that child.  Always succeeds. -/
def RadixTree.entry (t : RadixTree) (name : String) : RadixTree :=
  let child := t.current ++ [name]
  if t.nodes.any (fun e => e.1 = child) then
    { t with current := child }
  else
    { nodes := t.nodes ++ [(child, {})], current := child }

/-- Modelled from the spec: get_current_node gives access to the payload of
the node at the cursor (some payload whenever the cursor path is a node of
the tree, which holds in every reachable state). -/
def RadixTree.get_current_node (t : RadixTree) : Option CallerProfile :=
  t.lookup t.current

/-- Modelled from the spec: move_current_to_parent retracts the cursor to the
parent of the current node; invoking it with the cursor already at the root
is a programmer error (the cursor then stays at the root path). -/
def RadixTree.move_current_to_parent (t : RadixTree) : RadixTree :=
  { t with current := t.current.dropLast }

/-- Modelled from the spec: reset discards all nodes except a freshly
constructed root and returns the cursor to the root. -/
def RadixTree.reset (_t : RadixTree) : RadixTree :=
  RadixTree.initial

/-- Modelled from the spec: the children of the node at path p, in the order
they were first created (the node list is kept in insertion order). -/
def RadixTree.childrenOf (t : RadixTree) (p : List String) : List (List String × CallerProfile) :=
  t.nodes.filter (fun e => e.1.length = p.length + 1 ∧ e.1.take p.length = p)

/-- CallProfiler state from callprofiler.hpp: one explicit stack of active
invocations and one calling-context tree. -/
structure CallProfiler where
  m_callStack : List CallerInfo
  m_radixTree : RadixTree
  deriving Repr, DecidableEq

/-- The state of a freshly constructed CallProfiler (the singleton right
after its lazy construction). -/
def CallProfiler.fresh : CallProfiler :=
  { m_callStack := [], m_radixTree := RadixTree.initial }

/-- start_caller from callprofiler.hpp: capture the current timestamp, push
the caller onto the explicit stack, and advance the tree cursor with
entry(callerName). -/
def CallProfiler.start_caller (s : CallProfiler) (now : Nat) (callerName : String) : CallProfiler :=
  { m_callStack := { callerName := callerName, startTime := now } :: s.m_callStack,
    m_radixTree := s.m_radixTree.entry callerName }

/-- end_caller from callprofiler.hpp: the C++ reads m_callStack.top() with no
emptiness check, so with an empty stack the function has no defined
behaviour (undefined behaviour of std::stack::top/pop on an empty stack),
modelled as none.  With a non-empty stack it computes the elapsed time
truncated to milliseconds, adds it to the current node's payload,
increments the node's call count, refreshes the payload name, pops the
stack and retracts the cursor to the parent. -/
def CallProfiler.end_caller (s : CallProfiler) (now : Nat) : Option CallProfiler :=
  match s.m_callStack with
  | [] => none
  | top :: rest =>
    let elapsedTime := (now - top.startTime) / nsPerMs
    let updated := s.m_radixTree.update s.m_radixTree.current
      (fun cp => { callerName := top.callerName,
                   totalTime := cp.totalTime + elapsedTime,
                   callCount := cp.callCount + 1 })
    some { m_callStack := rest, m_radixTree := updated.move_current_to_parent }

/-- reset from callprofiler.hpp: pop the stack until empty and reset the
tree. -/
def CallProfiler.reset (s : CallProfiler) : CallProfiler :=
  { m_callStack := [], m_radixTree := s.m_radixTree.reset }

/-- Indentation of the report: two spaces per depth level. -/
def indentOf (depth : Nat) : String :=
  String.join (List.replicate depth "  ")

/-- The private recursive printer of callprofiler.hpp, one output line per
std::endl: write the indentation, then the fixed header at depth 0 or the
payload line (caller name, total time in ms, call count) at depth >= 1, then
recurse into the children in order.  The C++ recursion is over the actual
node structure; the model recurses on a fuel bound on the tree depth. -/
def underscorePrintProfilingResult (t : RadixTree) : Nat → List String → Nat → List String
  | 0, _, _ => []
  | fuel + 1, p, depth =>
    let profile := (t.lookup p).getD {}
    let line :=
      if depth = 0 then
        indentOf depth ++ "Profiling Result"
      else
        indentOf depth ++ profile.callerName ++ " - Total Time: " ++
          toString profile.totalTime ++ " ms, Call Count: " ++ toString profile.callCount
    line :: ((t.childrenOf p).map (fun c => underscorePrintProfilingResult t fuel c.1 (depth + 1))).flatten

/-- print_profiling_result from callprofiler.hpp: the public entry point
starts the recursion at the node returned by get_current_node (the cursor),
with depth 0.  The output stream is modelled as the list of written lines. -/
def CallProfiler.print_profiling_result (s : CallProfiler) : List String :=
  underscorePrintProfilingResult s.m_radixTree (s.m_radixTree.nodes.length + 1) s.m_radixTree.current 0

/-- One bracketing operation of the profiler interface, with the clock value
read when the operation runs. -/
inductive Op where
  | start (now : Nat) (callerName : String) : Op
  | stop (now : Nat) : Op
  deriving Repr, DecidableEq

/-- Single step of the profiler on one operation. -/
def CallProfiler.step (s : CallProfiler) : Op → Option CallProfiler
  | Op.start now n => some (s.start_caller now n)
  | Op.stop now => s.end_caller now

/-- Run of a sequence of bracketing operations. -/
def CallProfiler.run (s : CallProfiler) : List Op → Option CallProfiler
  | [] => some s
  | op :: ops => (s.step op).bind (fun s1 => s1.run ops)

/-- Cumulative time (ms) recorded at path p, zero when the node is absent. -/
def timeAt (t : RadixTree) (p : List String) : Nat :=
  ((t.lookup p).getD {}).totalTime

/-- Invocation count recorded at path p, zero when the node is absent. -/
def countAt (t : RadixTree) (p : List String) : Nat :=
  ((t.lookup p).getD {}).callCount

/-- BufferExpander from BufferExpander.hpp: the logical content is the byte
region [m_begin, m_end); size() is m_end - m_begin.  Only the logical
content matters to checked access, so capacity is not modelled. -/
structure BufferExpander where
  content : List Int
  deriving Repr, DecidableEq

/-- size from BufferExpander.hpp: the length of the logical byte region. -/
def BufferExpander.size (b : BufferExpander) : Nat :=
  b.content.length

/-- validate_range from BufferExpander.hpp: throws std::out_of_range with a
formatted message exactly when it >= size(). -/
def BufferExpander.validate_range (b : BufferExpander) (it : Nat) : Except String Unit :=
  if it ≥ b.size then
    Except.error ("BufferExpander: index " ++ toString it ++ " is out of bounds with size " ++ toString b.size)
  else
    Except.ok ()

/-- Checked element access (BufferExpander::at): validate the range, then
read the byte at the index. -/
def BufferExpander.at' (b : BufferExpander) (it : Nat) : Except String Int :=
  (b.validate_range it).bind (fun _ => Except.ok (b.content.getD it 0))

/-- Depth-first pre-order enumeration of the nodes reachable from a start
path, paired with their depth relative to the start (spec-side description
of the report traversal). -/
def preorderNodes (t : RadixTree) : Nat → List String → Nat → List (List String × Nat)
  | 0, _, _ => []
  | fuel + 1, p, depth =>
    (p, depth) :: ((t.childrenOf p).map (fun c => preorderNodes t fuel c.1 (depth + 1))).flatten

/-- Spec-side line format: the depth-0 line is the fixed header only; a line
at depth >= 1 carries two spaces per depth level, the caller name, the
cumulative time at millisecond resolution and the invocation count. -/
def specLine (t : RadixTree) (e : List String × Nat) : String :=
  if e.2 = 0 then
    "Profiling Result"
  else
    indentOf e.2 ++ ((t.lookup e.1).getD {}).callerName ++ " - Total Time: " ++
      toString ((t.lookup e.1).getD {}).totalTime ++ " ms, Call Count: " ++
      toString ((t.lookup e.1).getD {}).callCount

/-- Spec-side report: one line per pre-order visited node, starting from a
given node. -/
def render_spec_from (t : RadixTree) (start : List String) : List String :=
  (preorderNodes t (t.nodes.length + 1) start 0).map (specLine t)

/-- Report as claim C2 words it: the traversal starts from the root of the
tree. -/
def render_spec_from_root (t : RadixTree) : List String :=
  render_spec_from t []

/-- Profiler state after a single unmatched start_caller, used to compare
the printed report with the from-the-root description. -/
def c2state : CallProfiler :=
  CallProfiler.fresh.start_caller 0 "a"

/-- Call sequence reaching the same callee name b under two different parent
contexts a and c. -/
def c3ops (a b c : String) : List Op :=
  [Op.start 0 a, Op.start 0 b, Op.stop 0, Op.stop 0,
   Op.start 0 c, Op.start 0 b, Op.stop 0, Op.stop 0]

/-- One extra balanced a-then-b bracket, to exercise independence of the two
nodes named b. -/
def c3extra (a b : String) : List Op :=
  [Op.start 0 a, Op.start 0 b, Op.stop 0, Op.stop 0]

/-- One balanced start/stop pair on a name (all clock reads at 0). -/
def pairOps (name : String) : List Op :=
  [Op.start 0 name, Op.stop 0]

/-- The n-fold repetition of the balanced pair on a name. -/
def repeatedPairs (name : String) (n : Nat) : List Op :=
  (List.replicate n (pairOps name)).flatten

/-- Balanced bracketing sequences: each stop matches the most recent
unmatched start. -/
inductive Balanced : List Op → Prop where
  | nil : Balanced []
  | wrap (t1 t2 : Nat) (n : String) {ops : List Op} :
      Balanced ops → Balanced (Op.start t1 n :: ops ++ [Op.stop t2])
  | append {a b : List Op} : Balanced a → Balanced b → Balanced (a ++ b)

/-- Concrete balanced demonstration sequence for the lock-step claim. -/
def c5demoOps : List Op :=
  [Op.start 0 "outer", Op.start 0 "inner", Op.stop 0, Op.stop 0]

/-- Final state of the concrete balanced demonstration run. -/
def c5demoFinal : CallProfiler :=
  (CallProfiler.fresh.run c5demoOps).getD CallProfiler.fresh

/-- Two balanced pairs on the same name, each lasting 600000 ticks (0.6 ms):
each elapsed time truncates to 0 ms before accumulation. -/
def c7ops : List Op :=
  [Op.start 0 "f", Op.stop 600000, Op.start 600000 "f", Op.stop 1200000]

/-- Final state of the sub-millisecond truncation run. -/
def c7final : CallProfiler :=
  (CallProfiler.fresh.run c7ops).getD CallProfiler.fresh

/-- Profiler with one open invocation of f, started at tick 0. -/
def c6demoStart : CallProfiler :=
  CallProfiler.fresh.start_caller 0 "f"

/-- State after closing that invocation at tick 5000000 (5 ms). -/
def c6demoFinal : CallProfiler :=
  (c6demoStart.step (Op.stop 5000000)).getD CallProfiler.fresh

/-- Profiler with one open invocation of f, used to witness the elapsed-time
formula of end_caller. -/
def c7wstate : CallProfiler :=
  CallProfiler.fresh.start_caller 0 "f"

/-- Closed-form profiler state after k completed balanced pairs on one name
directly under the root: empty stack, cursor at the root, one child of the
root carrying the accumulated count. -/
def c4state (name : String) (k : Nat) : CallProfiler :=
  { m_callStack := [],
    m_radixTree :=
      { nodes := [([], {}), ([name], { callerName := name, totalTime := 0, callCount := k })],
        current := [] } }

/-- Appending the empty string on the left is the identity. -/
theorem empty_string_append (s : String) : "" ++ s = s :=
  rfl

/-- Refinement of the report: the recursive printer emits exactly one
spec-side line per pre-order visited node, at every fuel, start path and
depth. -/
theorem underscorePrint_eq_map_specLine (t : RadixTree) :
    ∀ (fuel : Nat) (p : List String) (depth : Nat),
      underscorePrintProfilingResult t fuel p depth =
        (preorderNodes t fuel p depth).map (specLine t) := by
  intro fuel
  induction fuel with
  | zero => intro p depth; rfl
  | succ f ih =>
    intro p depth
    simp only [underscorePrintProfilingResult, preorderNodes, List.map_cons]
    congr 1
    · by_cases h : depth = 0
      · simp only [specLine, h, if_pos, indentOf, List.replicate]
        exact empty_string_append _
      · simp [specLine, h]
    · rw [List.map_flatten, List.map_map]
      congr 1
      apply List.map_congr_left
      intro c _
      exact ih c.1 (depth + 1)

/-- C1: end_caller on a profiler whose active-invocation stack is empty (a
fresh profiler, or one just reset) reads the top of an empty std::stack, so
the code has no defined result there (modelled as none): there is no
unbalanced-call check at all. -/
theorem c1_end_caller_empty_stack_has_no_defined_result :
    (∀ now, CallProfiler.fresh.end_caller now = none) ∧
    (∀ (s : CallProfiler) (now : Nat), (s.reset).end_caller now = none) :=
  ⟨fun _ => rfl, fun _ _ => rfl⟩

/-- C2 counterexample: in the state reached by a single unmatched
start_caller, the code prints one header line (the traversal starts at the
cursor, which sits on the new child and has no children), while a traversal
starting from the root as the claim states it would print the header plus
one entry line for that child. -/
theorem c2_print_not_from_root :
    c2state.print_profiling_result = ["Profiling Result"] ∧
    render_spec_from_root c2state.m_radixTree =
      ["Profiling Result", "   - Total Time: 0 ms, Call Count: 0"] ∧
    c2state.print_profiling_result ≠ render_spec_from_root c2state.m_radixTree := by
  refine ⟨rfl, rfl, ?_⟩
  intro h
  exact absurd (congrArg List.length h) (by decide)

/-- C2 (amended): print_profiling_result performs a depth-first pre-order
traversal starting from the current cursor node (which is the root exactly
when the calls so far are balanced), writing one line per visited node:
at depth 0 the fixed header only, at depth >= 1 two spaces per depth level,
the payload caller name, the cumulative time in milliseconds and the
invocation count. -/
theorem c2_print_preorder_from_cursor (s : CallProfiler) :
    s.print_profiling_result = render_spec_from s.m_radixTree s.m_radixTree.current :=
  underscorePrint_eq_map_specLine s.m_radixTree (s.m_radixTree.nodes.length + 1) s.m_radixTree.current 0

/-- C8: reset is idempotent: two consecutive resets give the same state as
one, and after either the tree is a bare freshly constructed root with the
cursor at the root and the active-invocation stack is empty. -/
theorem c8_reset_idempotent (s : CallProfiler) :
    (s.reset).reset = s.reset ∧
    (s.reset).m_radixTree = RadixTree.initial ∧
    (s.reset).m_callStack = [] ∧
    (s.reset).m_radixTree.current = [] :=
  ⟨rfl, rfl, rfl, rfl⟩

/-- C9: checked access at(it) fails with the out-of-range condition exactly
when it is at least the logical size, and returns the byte at index it when
it is below the size. -/
theorem c9_at_bounds (b : BufferExpander) (it : Nat) :
    (b.size ≤ it →
      b.at' it = Except.error ("BufferExpander: index " ++ toString it ++
        " is out of bounds with size " ++ toString b.size)) ∧
    (∀ h : it < b.size, b.at' it = Except.ok (b.content.get ⟨it, h⟩)) := by
  constructor
  · intro h
    simp [BufferExpander.at', BufferExpander.validate_range, h, Except.bind]
  · intro h
    have h3 : it < b.content.length := h
    have h2 : ¬ b.content.length ≤ it := Nat.not_le.mpr h3
    simp [BufferExpander.at', BufferExpander.validate_range, BufferExpander.size, h2,
      Except.bind, List.getElem?_eq_getElem h3, List.get_eq_getElem]

/-- Witness for C9 at the two-byte buffer [5, 7]: index 2 is rejected with
the formatted message and index 1 yields the byte 7. -/
theorem c9_at_bounds_witness :
    BufferExpander.at' ⟨[5, 7]⟩ 2 =
      Except.error "BufferExpander: index 2 is out of bounds with size 2" ∧
    BufferExpander.at' ⟨[5, 7]⟩ 1 = Except.ok 7 :=
  ⟨(c9_at_bounds ⟨[5, 7]⟩ 2).1 (by decide),
   (c9_at_bounds ⟨[5, 7]⟩ 1).2 (by decide)⟩

/-- Run of a concatenation of operation sequences is the sequential
composition of the runs. -/
theorem run_append (a : List Op) :
    ∀ (s : CallProfiler) (b : List Op),
      s.run (a ++ b) = (s.run a).bind (fun s1 => s1.run b) := by
  induction a with
  | nil => intro s b; simp [CallProfiler.run]
  | cons op a ih =>
    intro s b
    simp only [List.cons_append, CallProfiler.run]
    cases h : s.step op with
    | none => rfl
    | some s1 => simp [ih s1 b]

/-- Running one fresh balanced pair on a name creates the node and records
one completed invocation. -/
theorem run_pair_fresh (name : String) :
    CallProfiler.fresh.run (pairOps name) = some (c4state name 1) := by
  simp [pairOps, CallProfiler.run, CallProfiler.step, CallProfiler.fresh,
    CallProfiler.start_caller, CallProfiler.end_caller, RadixTree.entry,
    RadixTree.initial, RadixTree.update, RadixTree.move_current_to_parent,
    c4state, nsPerMs]

/-- Running one more balanced pair on the same name from the closed-form
state reuses the existing node and increments its count. -/
theorem run_pair_step (name : String) (k : Nat) :
    (c4state name k).run (pairOps name) = some (c4state name (k + 1)) := by
  simp [pairOps, CallProfiler.run, CallProfiler.step, CallProfiler.start_caller,
    CallProfiler.end_caller, RadixTree.entry, RadixTree.update,
    RadixTree.move_current_to_parent, c4state, nsPerMs]

/-- Running n repeated balanced pairs from the closed-form state adds n to
the accumulated count. -/
theorem run_repeatedPairs (name : String) :
    ∀ (n k : Nat), (c4state name k).run (repeatedPairs name n) = some (c4state name (k + n)) := by
  intro n
  induction n with
  | zero => intro k; rfl
  | succ n ih =>
    intro k
    have hsplit : repeatedPairs name (n + 1) = pairOps name ++ repeatedPairs name n := by
      simp [repeatedPairs, List.replicate_succ]
    rw [hsplit, run_append, run_pair_step]
    simpa [Nat.add_comm, Nat.add_assoc, Nat.add_left_comm] using ih (k + 1)

/-- C4: for every name and every N >= 1, running N repeated balanced
start/end pairs on that name under the root context yields exactly one
child of the root for that name, whose invocation count is exactly N. -/
theorem c4_repeated_pairs_accumulate (name : String) (n : Nat) (h : 1 ≤ n) :
    ∃ s : CallProfiler,
      CallProfiler.fresh.run (repeatedPairs name n) = some s ∧
      s.m_radixTree.childrenOf [] =
        [([name], { callerName := name, totalTime := 0, callCount := n })] ∧
      countAt s.m_radixTree [name] = n := by
  obtain ⟨m, rfl⟩ : ∃ m, n = m + 1 := ⟨n - 1, by omega⟩
  refine ⟨c4state name (m + 1), ?_, ?_, ?_⟩
  · have hsplit : repeatedPairs name (m + 1) = pairOps name ++ repeatedPairs name m := by
      simp [repeatedPairs, List.replicate_succ]
    rw [hsplit, run_append, run_pair_fresh]
    simpa [Nat.add_comm] using run_repeatedPairs name m 1
  · simp [c4state, RadixTree.childrenOf]
  · simp [c4state, countAt, RadixTree.lookup]

/-- Witness for C4 at name f and N = 3. -/
theorem c4_repeated_pairs_accumulate_witness :
    ∃ s : CallProfiler,
      CallProfiler.fresh.run (repeatedPairs "f" 3) = some s ∧
      s.m_radixTree.childrenOf [] =
        [(["f"], { callerName := "f", totalTime := 0, callCount := 3 })] ∧
      countAt s.m_radixTree ["f"] = 3 :=
  c4_repeated_pairs_accumulate "f" 3 (by decide)

/-- Entry always moves the cursor to the child path, in both the reuse and
the creation branch. -/
theorem entry_current (t : RadixTree) (n : String) :
    (t.entry n).current = t.current ++ [n] := by
  simp only [RadixTree.entry]
  split <;> rfl

/-- Entry leaves the node list unchanged or appends the new child at the
end; either way it never rewrites an existing payload. -/
theorem entry_nodes (t : RadixTree) (n : String) :
    (t.entry n).nodes = t.nodes ∨
      (t.entry n).nodes =
        t.nodes ++ [(t.current ++ [n], { callerName := "", totalTime := 0, callCount := 0 })] := by
  simp only [RadixTree.entry]
  split
  · exact Or.inl rfl
  · exact Or.inr rfl

/-- One profiler step preserves the lock-step relation between the explicit
stack depth and the cursor depth. -/
theorem step_lockstep (s s' : CallProfiler) (op : Op)
    (h : s.m_callStack.length = s.m_radixTree.current.length)
    (hstep : s.step op = some s') :
    s'.m_callStack.length = s'.m_radixTree.current.length := by
  cases op with
  | start now n =>
    simp only [CallProfiler.step, Option.some.injEq] at hstep
    subst hstep
    simp [CallProfiler.start_caller, entry_current, h]
  | stop now =>
    simp only [CallProfiler.step] at hstep
    cases hs : s.m_callStack with
    | nil => rw [CallProfiler.end_caller, hs] at hstep; exact absurd hstep (by simp)
    | cons top rest =>
      rw [CallProfiler.end_caller, hs] at hstep
      simp only [Option.some.injEq] at hstep
      subst hstep
      have hlen : rest.length + 1 = s.m_radixTree.current.length := by
        rw [hs] at h; simpa using h
      simp only [RadixTree.move_current_to_parent, RadixTree.update, List.length_dropLast]
      omega

/-- Every successful run preserves the lock-step relation. -/
theorem run_lockstep :
    ∀ (ops : List Op) (s s' : CallProfiler),
      s.m_callStack.length = s.m_radixTree.current.length →
      s.run ops = some s' →
      s'.m_callStack.length = s'.m_radixTree.current.length := by
  intro ops
  induction ops with
  | nil =>
    intro s s' h hrun
    simp only [CallProfiler.run, Option.some.injEq] at hrun
    subst hrun; exact h
  | cons op ops ih =>
    intro s s' h hrun
    simp only [CallProfiler.run] at hrun
    cases hstep : s.step op with
    | none => rw [hstep] at hrun; exact absurd hrun (by simp)
    | some s1 =>
      rw [hstep] at hrun
      exact ih s1 s' (step_lockstep s s1 op h hstep) hrun

/-- A balanced operation sequence runs successfully from any state and
restores both the explicit stack and the cursor to their initial values. -/
theorem balanced_run_restores {ops : List Op} (hb : Balanced ops) :
    ∀ s : CallProfiler, ∃ s' : CallProfiler,
      s.run ops = some s' ∧
      s'.m_callStack = s.m_callStack ∧
      s'.m_radixTree.current = s.m_radixTree.current := by
  induction hb with
  | nil => intro s; exact ⟨s, rfl, rfl, rfl⟩
  | @wrap t1 t2 n ops2 hops ih =>
    intro s
    obtain ⟨s2, hrun2, hstack2, hcur2⟩ := ih (s.start_caller t1 n)
    have hstack2e : s2.m_callStack = { callerName := n, startTime := t1 } :: s.m_callStack := hstack2
    refine ⟨{ m_callStack := s.m_callStack,
              m_radixTree :=
                (s2.m_radixTree.update s2.m_radixTree.current
                  (fun cp => { callerName := n,
                               totalTime := cp.totalTime + (t2 - t1) / nsPerMs,
                               callCount := cp.callCount + 1 })).move_current_to_parent },
           ?_, rfl, ?_⟩
    · have h1 : s.run (Op.start t1 n :: ops2) = (s.start_caller t1 n).run ops2 := by
        simp [CallProfiler.run, CallProfiler.step]
      rw [run_append, h1, hrun2]
      show s2.run [Op.stop t2] = some _
      simp [CallProfiler.run, CallProfiler.step, CallProfiler.end_caller, hstack2e]
    · have hc : s2.m_radixTree.current = s.m_radixTree.current ++ [n] := by
        rw [hcur2]; exact entry_current _ _
      simp [RadixTree.move_current_to_parent, RadixTree.update, hc, List.dropLast_concat]
  | append ha hbb iha ihb =>
    intro s
    obtain ⟨s1, h1, hst1, hcu1⟩ := iha s
    obtain ⟨s2, h2, hst2, hcu2⟩ := ihb s1
    refine ⟨s2, ?_, hst2.trans hst1, hcu2.trans hcu1⟩
    rw [run_append, h1]
    exact h2

/-- C5: after any balanced sequence of starts and ends the cursor is back at
the root and the active-invocation stack is empty; and at every point
reachable from a fresh profiler the stack depth equals the cursor depth from
the root (so the two structures stay in lock-step at every intermediate
point of a balanced sequence as well). -/
theorem c5_stack_cursor_lockstep :
    (∀ (ops : List Op) (s' : CallProfiler), Balanced ops →
      CallProfiler.fresh.run ops = some s' →
      s'.m_callStack = [] ∧ s'.m_radixTree.current = []) ∧
    (∀ (ops : List Op) (s' : CallProfiler),
      CallProfiler.fresh.run ops = some s' →
      s'.m_callStack.length = s'.m_radixTree.current.length) := by
  constructor
  · intro ops s' hb hrun
    obtain ⟨s2, hrun2, h1, h2⟩ := balanced_run_restores hb CallProfiler.fresh
    rw [hrun] at hrun2
    injection hrun2 with h
    subst h
    exact ⟨h1, h2⟩
  · intro ops s' h
    exact run_lockstep ops CallProfiler.fresh s' rfl h

/-- Witness for C5 on the balanced sequence outer-inner-end-end. -/
theorem c5_stack_cursor_lockstep_witness :
    c5demoFinal.m_callStack = [] ∧ c5demoFinal.m_radixTree.current = [] ∧
    c5demoFinal.m_callStack.length = c5demoFinal.m_radixTree.current.length := by
  have hrun : CallProfiler.fresh.run c5demoOps = some c5demoFinal := by rfl
  have hb : Balanced c5demoOps :=
    Balanced.wrap 0 0 "outer" (Balanced.wrap 0 0 "inner" Balanced.nil)
  obtain ⟨h1, h2⟩ := c5_stack_cursor_lockstep.1 c5demoOps c5demoFinal hb hrun
  exact ⟨h1, h2, c5_stack_cursor_lockstep.2 c5demoOps c5demoFinal hrun⟩

/-- Finding a payload in the pointwise-updated node list: the entry at the
updated key is rewritten by f, every other entry is found as before. -/
theorem find?_map_update (q p : List String) (f : CallerProfile → CallerProfile) :
    ∀ l : List (List String × CallerProfile),
      Option.map (fun e => e.2)
          (List.find? (fun e => e.1 = p) (l.map (fun e => if e.1 = q then (e.1, f e.2) else e))) =
        if p = q then
          Option.map f (Option.map (fun e => e.2) (List.find? (fun e => e.1 = p) l))
        else
          Option.map (fun e => e.2) (List.find? (fun e => e.1 = p) l) := by
  intro l
  induction l with
  | nil =>
    simp only [List.map_nil, List.find?_nil, Option.map_none]
    split <;> rfl
  | cons e l ih =>
    by_cases hp : e.1 = p
    · subst hp
      by_cases hq : e.1 = q
      · subst hq
        simp [List.find?_cons]
      · simp [List.find?_cons, hq]
    · by_cases hq : e.1 = q
      · subst hq
        simp only [List.map_cons, List.find?_cons, if_true, eq_self_iff_true]
        have h1 : (decide ((e.1, f e.2).1 = p)) = false := by simp [hp]
        have h2 : (decide (e.1 = p)) = false := by simp [hp]
        simp only [h1, h2]
        exact ih
      · simp only [List.map_cons, if_neg hq, List.find?_cons]
        have h2 : (decide (e.1 = p)) = false := by simp [hp]
        simp only [h2]
        exact ih

/-- Lookup after a pointwise update: the payload at the updated path is
rewritten by f, every other payload is unchanged. -/
theorem lookup_update (t : RadixTree) (q : List String) (f : CallerProfile → CallerProfile)
    (p : List String) :
    (t.update q f).lookup p = if p = q then (t.lookup p).map f else t.lookup p := by
  obtain ⟨nodes, cur⟩ := t
  simp only [RadixTree.update, RadixTree.lookup]
  exact find?_map_update q p f nodes

/-- Cursor retraction does not touch the node list, so lookup is unchanged
by move_current_to_parent. -/
theorem lookup_move (t : RadixTree) (p : List String) :
    (t.move_current_to_parent).lookup p = t.lookup p :=
  rfl

/-- Combined effect of the end-of-invocation tree mutation on lookup. -/
theorem lookup_after_end (t : RadixTree) (g : CallerProfile → CallerProfile)
    (q p : List String) :
    ((t.update q g).move_current_to_parent).lookup p =
      if p = q then (t.lookup p).map g else t.lookup p := by
  rw [lookup_move, lookup_update]

/-- Explicit form of end_caller on a non-empty stack. -/
theorem end_caller_cons (s : CallProfiler) (now : Nat) (top : CallerInfo)
    (rest : List CallerInfo) (hstack : s.m_callStack = top :: rest) :
    s.end_caller now = some
      { m_callStack := rest,
        m_radixTree := (s.m_radixTree.update s.m_radixTree.current
          (fun cp => { callerName := top.callerName,
                       totalTime := cp.totalTime + (now - top.startTime) / nsPerMs,
                       callCount := cp.callCount + 1 })).move_current_to_parent } := by
  rw [CallProfiler.end_caller, hstack]

/-- Lookup after entry: either entry reused an existing child and every
payload is as before, or the looked-up path is the freshly created child
with an empty payload (and was absent before). -/
theorem lookup_entry (t : RadixTree) (n : String) (p : List String) :
    (t.entry n).lookup p = t.lookup p ∨
      (t.lookup p = none ∧
        (t.entry n).lookup p = some { callerName := "", totalTime := 0, callCount := 0 }) := by
  simp only [RadixTree.entry]
  split
  · exact Or.inl rfl
  · simp only [RadixTree.lookup, List.find?_append]
    cases hfind : t.nodes.find? (fun e => e.1 = p) with
    | some e => simp [hfind]
    | none =>
      by_cases hp : t.current ++ [n] = p
      · exact Or.inr (by simp [hfind, List.find?_cons, hp])
      · simp [hfind, List.find?_cons, hp]

/-- The cumulative time recorded at any path is unchanged by entry. -/
theorem timeAt_entry (t : RadixTree) (n : String) (p : List String) :
    timeAt (t.entry n) p = timeAt t p := by
  rcases lookup_entry t n p with h | ⟨h1, h2⟩
  · simp [timeAt, h]
  · simp [timeAt, h1, h2]

/-- One profiler step never decreases the cumulative time recorded at any
path. -/
theorem step_time_mono (s s' : CallProfiler) (op : Op)
    (hstep : s.step op = some s') (p : List String) :
    timeAt s.m_radixTree p ≤ timeAt s'.m_radixTree p := by
  cases op with
  | start now n =>
    simp only [CallProfiler.step, Option.some.injEq] at hstep
    subst hstep
    exact le_of_eq (timeAt_entry s.m_radixTree n p).symm
  | stop now =>
    simp only [CallProfiler.step] at hstep
    cases hs : s.m_callStack with
    | nil => rw [CallProfiler.end_caller, hs] at hstep; exact absurd hstep (by simp)
    | cons top rest =>
      rw [end_caller_cons s now top rest hs] at hstep
      injection hstep with h
      subst h
      simp only [timeAt, lookup_after_end]
      split
      · cases hl : s.m_radixTree.lookup p with
        | none => simp [hl]
        | some cp => simp [hl, Nat.le_add_right]
      · exact le_rfl

/-- The zero-until-completed invariant: any recorded payload whose call
count is zero has zero cumulative time. -/
def zeroInv (t : RadixTree) : Prop :=
  ∀ (p : List String) (cp : CallerProfile),
    t.lookup p = some cp → cp.callCount = 0 → cp.totalTime = 0

/-- Preservation of the zero-until-completed invariant by one step. -/
theorem step_zeroInv (s s' : CallProfiler) (op : Op)
    (hstep : s.step op = some s') (hinv : zeroInv s.m_radixTree) :
    zeroInv s'.m_radixTree := by
  cases op with
  | start now n =>
    simp only [CallProfiler.step, Option.some.injEq] at hstep
    subst hstep
    intro p cp hl hc
    rcases lookup_entry s.m_radixTree n p with h | ⟨_, h2⟩
    · exact hinv p cp (h ▸ hl) hc
    · rw [show (CallProfiler.start_caller s now n).m_radixTree = s.m_radixTree.entry n from rfl,
        h2] at hl
      injection hl with h
      subst h
      rfl
  | stop now =>
    simp only [CallProfiler.step] at hstep
    cases hs : s.m_callStack with
    | nil => rw [CallProfiler.end_caller, hs] at hstep; exact absurd hstep (by simp)
    | cons top rest =>
      rw [end_caller_cons s now top rest hs] at hstep
      injection hstep with h
      subst h
      intro p cp hl hc
      simp only [lookup_after_end] at hl
      by_cases hp : p = s.m_radixTree.current
      · rw [if_pos hp] at hl
        cases hl0 : s.m_radixTree.lookup p with
        | none => rw [hl0] at hl; exact absurd hl (by simp)
        | some cp0 =>
          rw [hl0] at hl
          simp only [Option.map_some', Option.some.injEq] at hl
          subst hl
          exact absurd hc (by simp)
      · rw [if_neg hp] at hl
        exact hinv p cp hl hc

/-- The zero-until-completed invariant is preserved along every successful
run. -/
theorem run_zeroInv :
    ∀ (ops : List Op) (s s' : CallProfiler),
      zeroInv s.m_radixTree → s.run ops = some s' → zeroInv s'.m_radixTree := by
  intro ops
  induction ops with
  | nil =>
    intro s s' h hrun
    simp only [CallProfiler.run, Option.some.injEq] at hrun
    subst hrun; exact h
  | cons op ops ih =>
    intro s s' h hrun
    simp only [CallProfiler.run] at hrun
    cases hstep : s.step op with
    | none => rw [hstep] at hrun; exact absurd hrun (by simp)
    | some s1 =>
      rw [hstep] at hrun
      exact ih s1 s' (step_zeroInv s s1 op hstep h) hrun

/-- Fresh profilers satisfy the zero-until-completed invariant. -/
theorem zeroInv_fresh : zeroInv CallProfiler.fresh.m_radixTree := by
  intro p cp hl hc
  by_cases hp : p = ([] : List String)
  · subst hp
    have h2 : CallProfiler.fresh.m_radixTree.lookup [] =
        some { callerName := "", totalTime := 0, callCount := 0 } := rfl
    rw [h2] at hl
    injection hl with h
    rw [← h]
  · have h2 : CallProfiler.fresh.m_radixTree.lookup p = none := by
      simp [CallProfiler.fresh, RadixTree.initial, RadixTree.lookup, List.find?_cons,
        Ne.symm hp]
    rw [h2] at hl
    exact absurd hl (by simp)

/-- C6: the cumulative time at every node is non-decreasing under every
profiler step, and in every state reachable from a fresh profiler a node
that never completed an end_caller (call count zero) has cumulative time
zero. -/
theorem c6_time_monotone_and_zero_before_completion :
    (∀ (s s' : CallProfiler) (op : Op), s.step op = some s' →
      ∀ p : List String, timeAt s.m_radixTree p ≤ timeAt s'.m_radixTree p) ∧
    (∀ (ops : List Op) (s' : CallProfiler), CallProfiler.fresh.run ops = some s' →
      ∀ (p : List String) (cp : CallerProfile),
        s'.m_radixTree.lookup p = some cp → cp.callCount = 0 → cp.totalTime = 0) :=
  ⟨fun s s' op h p => step_time_mono s s' op h p,
   fun ops s' hrun => run_zeroInv ops CallProfiler.fresh s' zeroInv_fresh hrun⟩

/-- Witness for C6: closing a 5 ms invocation of f does not decrease the
recorded time of the f node, and after a lone start of g the g node has
call count zero and time zero. -/
theorem c6_time_monotone_and_zero_before_completion_witness :
    timeAt c6demoStart.m_radixTree ["f"] ≤ timeAt c6demoFinal.m_radixTree ["f"] ∧
    ({ callerName := "", totalTime := 0, callCount := 0 } : CallerProfile).totalTime = 0 := by
  constructor
  · exact c6_time_monotone_and_zero_before_completion.1 c6demoStart c6demoFinal
      (Op.stop 5000000) (by rfl) ["f"]
  · exact c6_time_monotone_and_zero_before_completion.2 [Op.start 0 "g"]
      (CallProfiler.fresh.start_caller 0 "g") (by rfl) ["g"]
      { callerName := "", totalTime := 0, callCount := 0 } (by rfl) (by rfl)

/-- C7: end_caller computes the elapsed time once, as the difference between
its own timestamp and the timestamp stored by the matching start, truncated
to milliseconds (integer division by the ticks per millisecond) before
accumulation into the node at the cursor; every other node is untouched.
Moreover sub-millisecond precision is lost across additions: two 0.6 ms
brackets accumulate to 0 ms even though their 1.2 ms wall interval alone
would truncate to 1 ms. -/
theorem c7_elapsed_truncated_to_ms_once :
    (∀ (s : CallProfiler) (now : Nat) (top : CallerInfo) (rest : List CallerInfo)
        (cp : CallerProfile),
      s.m_callStack = top :: rest →
      s.m_radixTree.lookup s.m_radixTree.current = some cp →
      ∃ s' : CallProfiler, s.end_caller now = some s' ∧
        s'.m_callStack = rest ∧
        s'.m_radixTree.lookup s.m_radixTree.current =
          some { callerName := top.callerName,
                 totalTime := cp.totalTime + (now - top.startTime) / nsPerMs,
                 callCount := cp.callCount + 1 } ∧
        (∀ q : List String, q ≠ s.m_radixTree.current →
          s'.m_radixTree.lookup q = s.m_radixTree.lookup q)) ∧
    (countAt c7final.m_radixTree ["f"] = 2 ∧ timeAt c7final.m_radixTree ["f"] = 0 ∧
      (1200000 - 0) / nsPerMs = 1) := by
  constructor
  · intro s now top rest cp hstack hcur
    refine ⟨_, end_caller_cons s now top rest hstack, rfl, ?_, ?_⟩
    · simp only [lookup_after_end, if_pos rfl, hcur]
      rfl
    · intro q hq
      simp only [lookup_after_end, if_neg hq]
  · exact ⟨rfl, rfl, rfl⟩

/-- Witness for C7: closing a bracket of f opened at tick 0 at tick 2500000
adds exactly 2 ms to the node. -/
theorem c7_elapsed_truncated_to_ms_once_witness :
    ∃ s' : CallProfiler, c7wstate.end_caller 2500000 = some s' ∧
      s'.m_callStack = [] ∧
      s'.m_radixTree.lookup c7wstate.m_radixTree.current =
        some { callerName := "f", totalTime := 0 + (2500000 - 0) / nsPerMs,
               callCount := 0 + 1 } ∧
      (∀ q : List String, q ≠ c7wstate.m_radixTree.current →
        s'.m_radixTree.lookup q = c7wstate.m_radixTree.lookup q) :=
  c7_elapsed_truncated_to_ms_once.1 c7wstate 2500000
    { callerName := "f", startTime := 0 } []
    { callerName := "", totalTime := 0, callCount := 0 } rfl rfl

/-- C3: reaching the same callee name b from two different parent contexts a
and c produces two distinct nodes (distinct full paths), each with its own
count and time; a further balanced a-b bracket increments only the node
under a, leaving the node under c untouched, so the structure never merges
the two nodes by name. -/
theorem c3_path_disambiguation (a b c : String) (h : a ≠ c) :
    ∃ s s2 : CallProfiler,
      CallProfiler.fresh.run (c3ops a b c) = some s ∧
      s.m_radixTree.lookup [a, b] =
        some { callerName := b, totalTime := 0, callCount := 1 } ∧
      s.m_radixTree.lookup [c, b] =
        some { callerName := b, totalTime := 0, callCount := 1 } ∧
      [a, b] ≠ [c, b] ∧
      s.run (c3extra a b) = some s2 ∧
      countAt s2.m_radixTree [a, b] = 2 ∧
      countAt s2.m_radixTree [c, b] = 1 := by
  refine ⟨{ m_callStack := [],
            m_radixTree :=
              { nodes := [([], {}),
                          ([a], { callerName := a, totalTime := 0, callCount := 1 }),
                          ([a, b], { callerName := b, totalTime := 0, callCount := 1 }),
                          ([c], { callerName := c, totalTime := 0, callCount := 1 }),
                          ([c, b], { callerName := b, totalTime := 0, callCount := 1 })],
                current := [] } },
          { m_callStack := [],
            m_radixTree :=
              { nodes := [([], {}),
                          ([a], { callerName := a, totalTime := 0, callCount := 2 }),
                          ([a, b], { callerName := b, totalTime := 0, callCount := 2 }),
                          ([c], { callerName := c, totalTime := 0, callCount := 1 }),
                          ([c, b], { callerName := b, totalTime := 0, callCount := 1 })],
                current := [] } },
          ?_, ?_, ?_, ?_, ?_, ?_, ?_⟩
  · simp [c3ops, CallProfiler.run, CallProfiler.step, CallProfiler.start_caller,
      CallProfiler.end_caller, RadixTree.entry, RadixTree.update,
      RadixTree.move_current_to_parent, CallProfiler.fresh, RadixTree.initial,
      h, nsPerMs]
  · simp [RadixTree.lookup, List.find?_cons]
  · simp [RadixTree.lookup, List.find?_cons, h]
  · simp [h]
  · simp [c3extra, CallProfiler.run, CallProfiler.step, CallProfiler.start_caller,
      CallProfiler.end_caller, RadixTree.entry, RadixTree.update,
      RadixTree.move_current_to_parent, h, Ne.symm h, nsPerMs]
  · simp [countAt, RadixTree.lookup, List.find?_cons]
  · simp [countAt, RadixTree.lookup, List.find?_cons, h]

/-- Witness for C3 at the concrete names A, B, C. -/
theorem c3_path_disambiguation_witness :
    ∃ s s2 : CallProfiler,
      CallProfiler.fresh.run (c3ops "A" "B" "C") = some s ∧
      s.m_radixTree.lookup ["A", "B"] =
        some { callerName := "B", totalTime := 0, callCount := 1 } ∧
      s.m_radixTree.lookup ["C", "B"] =
        some { callerName := "B", totalTime := 0, callCount := 1 } ∧
      ["A", "B"] ≠ ["C", "B"] ∧
      s.run (c3extra "A" "B") = some s2 ∧
      countAt s2.m_radixTree ["A", "B"] = 2 ∧
      countAt s2.m_radixTree ["C", "B"] = 1 :=
  c3_path_disambiguation "A" "B" "C" (by decide)

/-- C10: on a profiler whose tree holds only the root (fresh, or right after
reset), the report is exactly the single fixed header line. -/
theorem c10_print_bare_root_header_only :
    CallProfiler.fresh.print_profiling_result = ["Profiling Result"] ∧
    ∀ s : CallProfiler, (s.reset).print_profiling_result = ["Profiling Result"] :=
  ⟨rfl, fun _ => rfl⟩

end modmesh
